import Mathlib

/-!
Verification development for the task-distribution web server
(test-dataserver.py, with the near-duplicate orig/webserver2.py).

The data model and operations of the server are shallowly embedded:
file names and request bodies are lists of characters, the pool of
input files is a list, the task registry (task_inputs) is an
association list, and the input/processed directories are lists of
file names.  The Python regular-expression substitutions used by
do_get_task only ever use patterns made of literal characters and the
dot wildcard, so re.sub is embedded as a leftmost, non-overlapping,
global substitution over such fixed-length patterns.  Wall-clock
readings (strftime) are passed in as already-formatted strings, and
the directory scan performed by glob is passed in as the list of
.fits file names currently in the input directory.
-/

set_option maxRecDepth 8000

/-- Character list of a string literal. -/
def strL (s : String) : List Char := s.data

/-- Test whether the first list is a leading segment of the second
(Python str.startswith, specialised to character lists). -/
def leadsWith : List Char → List Char → Bool
  | [], _ => true
  | _ :: _, [] => false
  | a :: as, b :: bs => a = b && leadsWith as bs

/-- Python substring containment: needle in hay. -/
def containsSub (n : List Char) : List Char → Bool
  | [] => decide (n = [])
  | h :: t => leadsWith n (h :: t) || containsSub n t

/-- A compiled pattern element: some c is the literal character c,
none is the regex dot wildcard. -/
def toPat (s : List Char) : List (Option Char) :=
  s.map (fun c => if c = '.' then none else some c)

/-- Whether the fixed-length pattern matches at the head of the text. -/
def matchPre : List (Option Char) → List Char → Bool
  | [], _ => true
  | _ :: _, [] => false
  | p :: ps, c :: cs =>
    (match p with
     | none => true
     | some d => decide (c = d)) && matchPre ps cs

/-- Leftmost, non-overlapping, global substitution of a fixed-length
pattern, as performed by Python re.sub for the dot-and-literal
patterns used in the source.  The fuel argument only serves structural
termination; any fuel at least the length of the text gives the same
result (pysubF_fuel below), and pysubL instantiates it with the
length. -/
def pysubF (pat : List (Option Char)) (rep : List Char) : Nat → List Char → List Char
  | _, [] => []
  | 0, s => s
  | fuel + 1, c :: t =>
    if matchPre pat (c :: t) then rep ++ pysubF pat rep fuel (t.drop (pat.length - 1))
    else c :: pysubF pat rep fuel t

/-- Substitution with sufficient fuel. -/
def pysubL (pat : List (Option Char)) (rep : List Char) (s : List Char) : List Char :=
  pysubF pat rep s.length s

/-- re.sub(pat, rep, s) for the patterns appearing in the source. -/
def pysub (pat rep s : List Char) : List Char := pysubL (toPat pat) rep s

/-- out_file derivation of test-dataserver.py line 258:
re.sub with LE1_VIS replaced by QLA_LE1-VIS, then .fits by .json. -/
def derive_out (f : List Char) : List Char :=
  pysub (strL ".fits") (strL ".json") (pysub (strL "LE1_VIS") (strL "QLA_LE1-VIS") f)

/-- log_file derivation of test-dataserver.py line 259:
re.sub with LE1-VIS replaced by LE1-VIS-LOG, then .json by .log. -/
def derive_log (o : List Char) : List Char :=
  pysub (strL ".json") (strL ".log") (pysub (strL "LE1-VIS") (strL "LE1-VIS-LOG") o)

/-- out_file derivation of orig/webserver2.py line 233 (same text as
the test-dataserver version). -/
def derive_out_orig (f : List Char) : List Char :=
  pysub (strL ".fits") (strL ".json") (pysub (strL "LE1_VIS") (strL "QLA_LE1-VIS") f)

/-- log_file derivation of orig/webserver2.py line 234: the inner
pattern is LE1_VIS (with an underscore), unlike the test-dataserver
version. -/
def derive_log_orig (o : List Char) : List Char :=
  pysub (strL ".json") (strL ".log") (pysub (strL "LE1_VIS") (strL "LE1-VIS-LOG") o)

/-- Modelled from the spec: the documented substitution rule for
out_file.  The input tag LE1_VIS is replaced by the output tag
QLA_LE1-VIS, and the trailing extension .fits is changed to .json.
This definition follows the words of the spec and is compared with
the derivation embedded from the source. -/
def endsWithL (suf s : List Char) : Bool := leadsWith suf.reverse s.reverse

/-- Change a trailing extension, as the documented rule describes it. -/
def chgExt (oldE newE s : List Char) : List Char :=
  if endsWithL oldE s then s.take (s.length - oldE.length) ++ newE else s

/-- Modelled from the spec: out_file per the documented rule. -/
def spec_out_file (f : List Char) : List Char :=
  chgExt (strL ".fits") (strL ".json") (pysub (strL "LE1_VIS") (strL "QLA_LE1-VIS") f)

/-- Modelled from the spec: log_file per the documented rule - a tag
substitution in out_file and the extension changed to .log. -/
def spec_log_file (f : List Char) : List Char :=
  chgExt (strL ".json") (strL ".log")
    (pysub (strL "LE1-VIS") (strL "LE1-VIS-LOG") (spec_out_file f))

/-- A task descriptor as assembled in do_get_task (the JSON dictionary
task_params). -/
structure TaskDescriptor where
  task_id : List Char
  in_file : List Char
  out_file : List Char
  log_file : List Char
  retrieve_path : List Char
deriving DecidableEq

/-- The descriptor built by do_get_task of test-dataserver.py for a
popped input file, given the formatted clock reading now
(strftime of the pattern QDTsrv_%Y%m%d-%H%M%S splits into the literal
part and the formatted time). -/
def mkTaskTest (now f : List Char) : TaskDescriptor :=
  { task_id := strL "QDTsrv_" ++ now
    in_file := f
    out_file := derive_out f
    log_file := derive_log (derive_out f)
    retrieve_path := strL "input" }

/-- The descriptor built by do_get_task of orig/webserver2.py. -/
def mkTaskOrig (now f : List Char) : TaskDescriptor :=
  { task_id := strL "QDTsrv_" ++ now
    in_file := f
    out_file := derive_out_orig f
    log_file := derive_log_orig (derive_out_orig f)
    retrieve_path := strL "input" }

/-- The task registry task_inputs: newest insertion in front, lookup
finds the most recent binding, entries are never removed. -/
abbrev Registry := List (List Char × List Char)

/-- Dictionary lookup in the registry. -/
def lookupReg : Registry → List Char → Option (List Char)
  | [], _ => none
  | (k, v) :: r, t => if k = t then some v else lookupReg r t

/-- get_new_input_files in directory-scan mode (generate_dummy_files
is False in the source).  fsFits is the list of .fits files the glob
call finds in the input directory.  The while loop exits as soon as
the pool is non-empty; with an empty pool and an empty directory the
busy poll never returns, which is modelled as none. -/
def get_new_input_files (fsFits pool : List (List Char)) : Option (List (List Char)) :=
  if pool.length < 1 then
    if fsFits.isEmpty then none else some (pool ++ fsFits)
  else some pool

/-- Result of a do_get_task call: ok carries the descriptor, the pool
after the pop, and the registry after the insert; hang is the
non-returning busy poll; popError is the IndexError a pop from an
empty pool would raise (proved unreachable). -/
inductive GetOutcome where
  | ok (desc : TaskDescriptor) (pool : List (List Char)) (reg : Registry)
  | hang
  | popError
deriving DecidableEq

/-- do_get_task of test-dataserver.py: refill the pool when empty,
pop the first file, derive names, register the task.  The first
component counts how many times get_new_input_files was invoked. -/
def do_get_task (now : List Char) (fsFits pool : List (List Char)) (reg : Registry) :
    Nat × GetOutcome :=
  let refills := if pool.length < 1 then 1 else 0
  let pooled := if pool.length < 1 then get_new_input_files fsFits pool else some pool
  match pooled with
  | none => (refills, .hang)
  | some [] => (refills, .popError)
  | some (f :: rest) =>
    (refills, .ok (mkTaskTest now f) rest (((mkTaskTest now f).task_id, f) :: reg))

/-- A sequence of do_get_task calls, one per clock reading, threading
pool and registry; the Nat sums the refill counts.  none when any
call hangs or hits popError. -/
def runGetTasks (fsFits : List (List Char)) :
    List (List Char) → List (List Char) → Registry →
    Option (Nat × List TaskDescriptor × List (List Char) × Registry)
  | [], pool, reg => some (0, [], pool, reg)
  | now :: nows, pool, reg =>
    match do_get_task now fsFits pool reg with
    | (k, .ok d pool1 reg1) =>
      match runGetTasks fsFits nows pool1 reg1 with
      | some (n, ds, p, r) => some (k + n, d :: ds, p, r)
      | none => none
    | _ => none

/-- Result of do_end_task: ok carries the response status code and
body written by send_content (200, empty); keyError is the uncaught
KeyError of the registry lookup; renameError is the uncaught OSError
of os.rename when the source file is absent. -/
inductive EndOutcome where
  | ok (code : Nat) (body : List Char)
  | keyError
  | renameError
deriving DecidableEq

/-- Placing a file into a directory listing (os.rename overwrites an
existing destination, so the name appears once). -/
def insertFs (f : List Char) (l : List (List Char)) : List (List Char) :=
  if f ∈ l then l else f :: l

/-- do_end_task of test-dataserver.py: look up the task, move the
registered file from the input directory to the processed directory
by rename, reply with a bare 200.  The directories are listings of
file names. -/
def do_end_task (task_id : List Char) (reg : Registry)
    (inputFs processedFs : List (List Char)) :
    EndOutcome × List (List Char) × List (List Char) :=
  match lookupReg reg task_id with
  | none => (.keyError, inputFs, processedFs)
  | some f =>
    if f ∈ inputFs then (.ok 200 [], inputFs.erase f, insertFs f processedFs)
    else (.renameError, inputFs, processedFs)

/-- file.readline on a character stream: everything up to and
including the first newline, or the whole rest when no newline
remains (empty at end of stream). -/
def readline : List Char → List Char × List Char
  | [] => ([], [])
  | c :: t =>
    if c = '\n' then ([c], t)
    else ((readline t).1.cons c, (readline t).2)

/-- The successive readline results of a stream, fuel-driven for
structural termination; fuel equal to the stream length always
suffices because each line is non-empty. -/
def linesOfF : Nat → List Char → List (List Char)
  | _, [] => []
  | 0, c :: t => [c :: t]
  | fuel + 1, c :: t => (readline (c :: t)).1 :: linesOfF fuel (readline (c :: t)).2

/-- The lines of a stream. -/
def linesOf (s : List Char) : List (List Char) := linesOfF s.length s

/-- Outcome of deal_post_data, one constructor per return site:
success is (True, upload success); noBoundary is
(False, Content NOT begin with boundary); noFileName is
(False, missing file name); truncated is
(False, Unexpect Ends of data.); hang is the non-terminating loop
that rereads an empty line at end of stream. -/
inductive PostOutcome where
  | success
  | noBoundary
  | noFileName
  | truncated
  | hang
deriving DecidableEq

/-- preline[0:-1] followed by stripping one trailing carriage return,
as performed when the boundary line is recognised. -/
def stripPend (p : List Char) : List Char :=
  let p1 := p.dropLast
  if p1.getLast? = some '\r' then p1.dropLast else p1

/-- The upload loop of deal_post_data (lines 458-471), iterating over
the remaining readline results.  remain is the remainbytes counter;
preline is the buffered pending line; written accumulates the bytes
already written to the destination. -/
def uploadLoopL (boundary : List Char) : Int → List Char → List Char →
    List (List Char) → PostOutcome × List Char
  | remain, preline, written, [] =>
    if remain ≤ 0 then (.truncated, written)
    else if containsSub boundary [] then (.success, written ++ stripPend preline)
    else (.hang, written ++ preline)
  | remain, preline, written, l :: rest =>
    if remain ≤ 0 then (.truncated, written)
    else if containsSub boundary l then (.success, written ++ stripPend preline)
    else uploadLoopL boundary (remain - l.length) l (written ++ preline) rest

/-- The literal Content-Disposition of the filename regular
expression. -/
def cdLit : List Char := strL "Content-Disposition"

/-- The literal between the two greedy groups of the filename regular
expression. -/
def fnKey : List Char := strL "name=\"file\"; filename=\""

/-- Whether position i of the text can host the key with a closing
quote somewhere after it. -/
def goodKeyPos (t : List Char) (i : Nat) : Bool :=
  leadsWith fnKey (t.drop i) && (t.drop (i + fnKey.length)).contains '"'

/-- Complete a match that started at an occurrence of the
Content-Disposition literal: the first greedy .* picks the last
viable key position, the greedy group then ends at the last quote. -/
def completeTail (t : List Char) : Option (List Char) :=
  match ((List.range (t.length + 1)).filter (fun i => goodKeyPos t i)).getLast? with
  | none => none
  | some j =>
    let u := t.drop (j + fnKey.length)
    match ((List.range u.length).filter
        (fun i => decide (u.get? i = some '"'))).getLast? with
    | none => none
    | some q => some (u.take q)

/-- re.findall of the pattern Content-Disposition.*name="file";
filename="(.*)" : the group of the leftmost match, with Python
greedy backtracking semantics for the fixed pattern shape. -/
def extractFilename : List Char → Option (List Char)
  | [] => none
  | c :: t =>
    if leadsWith cdLit (c :: t) then
      match completeTail ((c :: t).drop cdLit.length) with
      | some g => some g
      | none => extractFilename t
    else extractFilename t

/-- deal_post_data of test-dataserver.py (lines 424-471): check the
boundary on the first line, extract the file name from the second,
consume the blank line, open the destination (the Bool records that
the open was reached), buffer one line and run the upload loop.
boundary is the token from the content-type header, contentLength
the declared content-length. -/
def deal_post_data (boundary : List Char) (contentLength : Int) (body : List Char) :
    PostOutcome × Bool × List Char :=
  let line1 := (readline body).1
  let r1 := (readline body).2
  let rb1 : Int := contentLength - line1.length
  if containsSub boundary line1 then
    let line2 := (readline r1).1
    let r2 := (readline r1).2
    let rb2 : Int := rb1 - line2.length
    match extractFilename line2 with
    | none => (.noFileName, false, [])
    | some _ =>
      let line3 := (readline r2).1
      let r3 := (readline r2).2
      let rb3 : Int := rb2 - line3.length
      let preline := (readline r3).1
      let r4 := (readline r3).2
      let rb4 : Int := rb3 - preline.length
      let res := uploadLoopL boundary rb4 preline [] (linesOf r4)
      (res.1, true, res.2)
  else (.noBoundary, false, [])

/-! ## General lemmas about the substitution engine -/

theorem pysubF_fuel (pat : List (Option Char)) (rep : List Char) :
    ∀ (f1 f2 : Nat) (s : List Char), s.length ≤ f1 → s.length ≤ f2 →
      pysubF pat rep f1 s = pysubF pat rep f2 s := by
  intro f1
  induction f1 with
  | zero =>
    intro f2 s h1 _
    have : s = [] := List.eq_nil_of_length_eq_zero (Nat.le_zero.mp h1)
    subst this
    cases f2 <;> rfl
  | succ g1 ih =>
    intro f2 s h1 h2
    cases s with
    | nil => cases f2 <;> rfl
    | cons c t =>
      cases f2 with
      | zero => exact absurd h2 (by simp)
      | succ g2 =>
        simp only [pysubF]
        by_cases hm : matchPre pat (c :: t) = true
        · simp only [hm, if_true]
          have hlen : (t.drop (pat.length - 1)).length ≤ g1 := by
            simp only [List.length_drop]
            simp only [List.length_cons] at h1
            omega
          have hlen2 : (t.drop (pat.length - 1)).length ≤ g2 := by
            simp only [List.length_drop]
            simp only [List.length_cons] at h2
            omega
          rw [ih g2 _ hlen hlen2]
        · simp only [hm, Bool.false_eq_true, if_false]
          have hlen : t.length ≤ g1 := by
            simp only [List.length_cons] at h1; omega
          have hlen2 : t.length ≤ g2 := by
            simp only [List.length_cons] at h2; omega
          rw [ih g2 _ hlen hlen2]

theorem pysubL_nil (pat : List (Option Char)) (rep : List Char) :
    pysubL pat rep [] = [] := rfl

theorem pysubL_cons (pat : List (Option Char)) (rep : List Char) (c : Char) (t : List Char) :
    pysubL pat rep (c :: t) =
      if matchPre pat (c :: t) then rep ++ pysubL pat rep (t.drop (pat.length - 1))
      else c :: pysubL pat rep t := by
  show pysubF pat rep (t.length + 1) (c :: t) = _
  simp only [pysubF]
  by_cases hm : matchPre pat (c :: t) = true
  · simp only [hm, if_true, pysubL]
    rw [pysubF_fuel pat rep t.length (t.drop (pat.length - 1)).length (t.drop (pat.length - 1))
      (by simp only [List.length_drop]; omega) (Nat.le_refl _)]
  · simp only [hm, Bool.false_eq_true, if_false, pysubL]

theorem matchPre_length (pat : List (Option Char)) :
    ∀ v : List Char, matchPre pat v = true → pat.length ≤ v.length := by
  induction pat with
  | nil => intro v _; simp
  | cons p ps ih =>
    intro v h
    cases v with
    | nil => exact absurd h (by simp [matchPre])
    | cons c cs =>
      simp only [matchPre, Bool.and_eq_true] at h
      have := ih cs h.2
      simp only [List.length_cons]
      omega

theorem matchPre_append (pat : List (Option Char)) (u : List Char) :
    ∀ v : List Char, matchPre pat v = true → matchPre pat (v ++ u) = true := by
  induction pat with
  | nil => intro v _; simp [matchPre]
  | cons p ps ih =>
    intro v h
    cases v with
    | nil => exact absurd h (by simp [matchPre])
    | cons c cs =>
      simp only [matchPre, Bool.and_eq_true] at h
      simp only [List.cons_append, matchPre, Bool.and_eq_true]
      exact ⟨h.1, ih cs h.2⟩

theorem matchPre_of_append (pat : List (Option Char)) (u : List Char) :
    ∀ v : List Char, matchPre pat (v ++ u) = true → pat.length ≤ v.length →
      matchPre pat v = true := by
  induction pat with
  | nil => intro v _ _; simp [matchPre]
  | cons p ps ih =>
    intro v h hlen
    cases v with
    | nil => simp at hlen
    | cons c cs =>
      simp only [List.cons_append, matchPre, Bool.and_eq_true] at h
      simp only [matchPre, Bool.and_eq_true]
      simp only [List.length_cons] at hlen
      exact ⟨h.1, ih cs h.2 (by omega)⟩

theorem matchPre_lit (l : List Char) :
    ∀ v : List Char, matchPre (l.map some) v = true ↔ ∃ w, v = l ++ w := by
  induction l with
  | nil =>
    intro v
    simp only [List.map_nil, matchPre, List.nil_append]
    exact ⟨fun _ => ⟨v, rfl⟩, fun _ => trivial⟩
  | cons a l ih =>
    intro v
    cases v with
    | nil =>
      simp only [List.map_cons, matchPre]
      constructor
      · intro h; exact absurd h (by simp)
      · rintro ⟨w, hw⟩; exact absurd hw (by simp)
    | cons c cs =>
      simp only [List.map_cons, matchPre, Bool.and_eq_true, decide_eq_true_eq, ih cs]
      constructor
      · rintro ⟨rfl, w, rfl⟩; exact ⟨w, rfl⟩
      · rintro ⟨w, hw⟩
        rw [List.cons_append] at hw
        injection hw with h1 h2
        exact ⟨h1, w, h2⟩

theorem matchPre_straddle (l : List Char) (c : Char) (u : List Char) (hc : c ∉ l) :
    ∀ v : List Char, matchPre (l.map some) (v ++ c :: u) = true → l.length ≤ v.length := by
  induction l with
  | nil => intro v _; simp
  | cons a l ih =>
    intro v h
    cases v with
    | nil =>
      simp only [List.nil_append, List.map_cons, matchPre, Bool.and_eq_true,
        decide_eq_true_eq] at h
      exact absurd (h.1 ▸ List.mem_cons_self a l) hc
    | cons b v =>
      simp only [List.cons_append, List.map_cons, matchPre, Bool.and_eq_true] at h
      have := ih (fun hmem => hc (List.mem_cons_of_mem a hmem)) v h.2
      simp only [List.length_cons]
      omega

theorem leadsWith_iff (n : List Char) :
    ∀ v : List Char, leadsWith n v = true ↔ ∃ w, v = n ++ w := by
  induction n with
  | nil =>
    intro v
    simp only [leadsWith, List.nil_append]
    exact ⟨fun _ => ⟨v, rfl⟩, fun _ => trivial⟩
  | cons a n ih =>
    intro v
    cases v with
    | nil =>
      simp only [leadsWith]
      constructor
      · intro h; exact absurd h (by simp)
      · rintro ⟨w, hw⟩; exact absurd hw (by simp)
    | cons c cs =>
      simp only [leadsWith, Bool.and_eq_true, decide_eq_true_eq, ih cs]
      constructor
      · rintro ⟨rfl, w, rfl⟩; exact ⟨w, rfl⟩
      · rintro ⟨w, hw⟩
        rw [List.cons_append] at hw
        injection hw with h1 h2
        exact ⟨h1.symm, w, h2⟩

theorem containsSub_iff (n : List Char) :
    ∀ h : List Char, containsSub n h = true ↔ ∃ a b, h = a ++ n ++ b := by
  intro h
  induction h with
  | nil =>
    simp only [containsSub, decide_eq_true_eq]
    constructor
    · rintro rfl; exact ⟨[], [], rfl⟩
    · rintro ⟨a, b, hab⟩
      exact (List.append_eq_nil.mp (List.append_eq_nil.mp hab.symm).1).2
  | cons x t ih =>
    simp only [containsSub, Bool.or_eq_true, leadsWith_iff, ih]
    constructor
    · rintro (⟨w, hw⟩ | ⟨a, b, hab⟩)
      · exact ⟨[], w, by simp [hw]⟩
      · exact ⟨x :: a, b, by simp [hab]⟩
    · rintro ⟨a, b, hab⟩
      cases a with
      | nil => exact Or.inl ⟨b, by simpa using hab⟩
      | cons y a =>
        right
        rw [List.cons_append, List.cons_append] at hab
        injection hab with h1 h2
        exact ⟨a, b, h2⟩

theorem pysubL_no_match (pat : List (Option Char)) (rep : List Char) :
    ∀ u : List Char, (∀ v, v <:+ u → matchPre pat v = false) →
      pysubL pat rep u = u := by
  intro u
  induction u with
  | nil => intro _; rfl
  | cons c t ih =>
    intro H
    rw [pysubL_cons]
    have h0 : matchPre pat (c :: t) = false := H (c :: t) (List.suffix_refl _)
    simp only [h0, Bool.false_eq_true, if_false]
    rw [ih (fun v hv => H v (hv.trans (List.suffix_cons c t)))]

theorem pysubL_append_outer (pat : List (Option Char)) (rep : List Char) (u : List Char) :
    ∀ s : List Char, (∀ v, v <:+ s → v ≠ [] → matchPre pat (v ++ u) = false) →
      pysubL pat rep (s ++ u) = s ++ pysubL pat rep u := by
  intro s
  induction s with
  | nil => intro _; simp
  | cons c t ih =>
    intro H
    rw [List.cons_append, pysubL_cons]
    have h0 : matchPre pat (c :: (t ++ u)) = false := by
      have := H (c :: t) (List.suffix_refl _) (by simp)
      simpa using this
    simp only [h0, Bool.false_eq_true, if_false]
    rw [ih (fun v hv hne => H v (hv.trans (List.suffix_cons c t)) hne)]
    simp

theorem pysubL_append_inner (pat : List (Option Char)) (rep : List Char) (u : List Char)
    (hu : ∀ v, v <:+ u → matchPre pat v = false) :
    ∀ (n : Nat) (s : List Char), s.length ≤ n →
      (∀ v, v <:+ s → matchPre pat (v ++ u) = true → matchPre pat v = true) →
      pysubL pat rep (s ++ u) = pysubL pat rep s ++ u := by
  intro n
  induction n with
  | zero =>
    intro s hlen _
    have : s = [] := List.eq_nil_of_length_eq_zero (Nat.le_zero.mp hlen)
    subst this
    simp [pysubL_no_match pat rep u hu, pysubL_nil]
  | succ m ih =>
    intro s hlen H
    cases s with
    | nil => simp [pysubL_no_match pat rep u hu, pysubL_nil]
    | cons c t =>
      by_cases hm : matchPre pat (c :: t ++ u) = true
      · have hm2 : matchPre pat (c :: t) = true :=
          H (c :: t) (List.suffix_refl _) (by simpa using hm)
        have hpl : pat.length ≤ t.length + 1 := by
          have := matchPre_length pat (c :: t) hm2
          simpa using this
        rw [List.cons_append, pysubL_cons, pysubL_cons]
        simp only [show matchPre pat (c :: (t ++ u)) = true by simpa using hm, hm2, if_true]
        rw [List.drop_append_of_le_length (by omega : pat.length - 1 ≤ t.length)]
        rw [ih (t.drop (pat.length - 1))
          (by simp only [List.length_drop]; simp only [List.length_cons] at hlen; omega)
          (fun v hv hmv => H v
            (hv.trans ((List.drop_suffix _ t).trans (List.suffix_cons c t))) hmv)]
        simp
      · have hm2 : matchPre pat (c :: t) = false := by
          by_contra hx
          have := matchPre_append pat u (c :: t) (Bool.of_not_eq_false hx)
          rw [List.cons_append] at this
          exact hm (by simpa using this)
        rw [List.cons_append, pysubL_cons, pysubL_cons]
        simp only [show matchPre pat (c :: (t ++ u)) = false by simpa using
            (Bool.eq_false_iff.mpr hm), hm2, Bool.false_eq_true, if_false]
        rw [ih t (by simp only [List.length_cons] at hlen; omega)
          (fun v hv hmv => H v (hv.trans (List.suffix_cons c t)) hmv)]
        simp

theorem matchPre_false_of_short (pat : List (Option Char)) (v : List Char)
    (h : v.length < pat.length) : matchPre pat v = false := by
  by_contra hx
  have := matchPre_length pat v (Bool.of_not_eq_false hx)
  omega

/-! ## Claims -/

/-- C1: sequential exactly-once issuance.  For a pool seeded with N
distinct work items and N get_task calls executed one after another,
no refill is ever triggered, each pool item is returned to exactly one
caller (the returned in_file sequence is exactly the pool), and the
pool holds 0 items afterwards. -/
theorem c1_sequential_exactly_once :
    ∀ (pool nows fsFits : List (List Char)) (reg : Registry),
      pool.Nodup → nows.length = pool.length →
      ∃ ds reg2, runGetTasks fsFits nows pool reg = some (0, ds, [], reg2) ∧
        ds.map TaskDescriptor.in_file = pool := by
  intro pool
  induction pool with
  | nil =>
    intro nows fs reg _ hlen
    have : nows = [] := List.eq_nil_of_length_eq_zero hlen
    subst this
    exact ⟨[], reg, rfl, rfl⟩
  | cons f rest ih =>
    intro nows fs reg hnd hlen
    cases nows with
    | nil => simp at hlen
    | cons n ns =>
      have hstep : do_get_task n fs (f :: rest) reg
          = (0, .ok (mkTaskTest n f) rest (((mkTaskTest n f).task_id, f) :: reg)) := by
        simp [do_get_task]
      obtain ⟨ds, reg2, hrun, hmap⟩ :=
        ih ns fs (((mkTaskTest n f).task_id, f) :: reg) (List.Nodup.of_cons hnd)
          (by simpa using hlen)
      refine ⟨mkTaskTest n f :: ds, reg2, ?_, ?_⟩
      · simp [runGetTasks, hstep, hrun]
      · simp only [List.map_cons, hmap]
        rfl

/-- C1 witness: two distinct pool items, two calls. -/
theorem c1_sequential_exactly_once_witness :
    ∃ ds reg2,
      runGetTasks [] [strL "20230101-000001", strL "20230101-000002"]
          [strL "a_LE1_VIS.fits", strL "b_LE1_VIS.fits"] [] = some (0, ds, [], reg2) ∧
        ds.map TaskDescriptor.in_file = [strL "a_LE1_VIS.fits", strL "b_LE1_VIS.fits"] :=
  c1_sequential_exactly_once [strL "a_LE1_VIS.fits", strL "b_LE1_VIS.fits"]
    [strL "20230101-000001", strL "20230101-000002"] [] [] (by decide) (by decide)

/-- C2: the multipart happy path writes exactly HELLO for the given
body and succeeds; in general, once the boundary line is recognised,
the trailing newline and one possible trailing carriage return are
stripped from the buffered pending line before the final write. -/
theorem c2_multipart_happy_path :
    deal_post_data (strL "B")
        ((strL "--B\r\nContent-Disposition: form-data; name=\"file\"; filename=\"a.txt\"\r\n\r\nHELLO\r\n--B--\r\n").length : Int)
        (strL "--B\r\nContent-Disposition: form-data; name=\"file\"; filename=\"a.txt\"\r\n\r\nHELLO\r\n--B--\r\n")
      = (.success, true, strL "HELLO")
    ∧ ∀ (b q w l : List Char) (ls : List (List Char)) (r : Int),
        0 < r → containsSub b l = true →
        uploadLoopL b r (q ++ ['\n']) w (l :: ls)
          = (.success, w ++ (if q.getLast? = some '\r' then q.dropLast else q)) := by
  constructor
  · decide
  · intro b q w l ls r hr hb
    have hr2 : ¬ r ≤ 0 := by omega
    simp only [uploadLoopL, hr2, if_false, hb, if_true]
    have hstrip : stripPend (q ++ ['\n'])
        = if q.getLast? = some '\r' then q.dropLast else q := by
      simp [stripPend, List.dropLast_concat]
    rw [hstrip]

/-- C2 witness for the universally quantified part. -/
theorem c2_multipart_happy_path_witness :
    uploadLoopL (strL "B") 7 (strL "HELLO\r" ++ ['\n']) [] [strL "--B--\r\n"]
      = (.success, [] ++ (if (strL "HELLO\r").getLast? = some '\r'
          then (strL "HELLO\r").dropLast else strL "HELLO\r")) :=
  c2_multipart_happy_path.2 (strL "B") (strL "HELLO\r") [] (strL "--B--\r\n") [] 7
    (by decide) (by decide)

/-- C3: end_task with a registered task id whose file is present in
the input directory replies with a bare 200 and an empty body, removes
exactly that file from the input listing, places it in the processed
listing, and leaves every other file of the input listing in place. -/
theorem c3_end_task_moves_file :
    ∀ (tid : List Char) (reg : Registry) (inputFs processedFs : List (List Char))
      (f : List Char),
      lookupReg reg tid = some f → f ∈ inputFs → inputFs.Nodup →
      do_end_task tid reg inputFs processedFs
          = (.ok 200 [], inputFs.erase f, insertFs f processedFs)
        ∧ f ∉ inputFs.erase f
        ∧ f ∈ insertFs f processedFs
        ∧ (∀ g, g ≠ f → (g ∈ inputFs.erase f ↔ g ∈ inputFs)) := by
  intro tid reg inFs prFs f hlook hmem hnd
  refine ⟨?_, ?_, ?_, ?_⟩
  · simp [do_end_task, hlook, hmem]
  · intro hx
    exact ((List.Nodup.mem_erase_iff hnd).mp hx).1 rfl
  · by_cases hp : f ∈ prFs <;> simp [insertFs, hp]
  · intro g hg
    exact List.mem_erase_of_ne hg

/-- C3 witness: one registered task, one file in the input listing. -/
theorem c3_end_task_moves_file_witness :
    do_end_task (strL "QDTsrv_20230101-000000")
        [(strL "QDTsrv_20230101-000000", strL "a_LE1_VIS.fits")]
        [strL "a_LE1_VIS.fits", strL "b_LE1_VIS.fits"] []
      = (.ok 200 [], [strL "b_LE1_VIS.fits"], [strL "a_LE1_VIS.fits"])
    ∧ strL "a_LE1_VIS.fits"
        ∉ [strL "a_LE1_VIS.fits", strL "b_LE1_VIS.fits"].erase (strL "a_LE1_VIS.fits") := by
  have h := c3_end_task_moves_file (strL "QDTsrv_20230101-000000")
    [(strL "QDTsrv_20230101-000000", strL "a_LE1_VIS.fits")]
    [strL "a_LE1_VIS.fits", strL "b_LE1_VIS.fits"] [] (strL "a_LE1_VIS.fits")
    (by decide) (by decide) (by decide)
  refine ⟨?_, h.2.1⟩
  rw [h.1]
  decide

/-- C4: end_task with a task id absent from the registry raises an
uncaught KeyError (modelled by the keyError outcome) instead of an
explicit error response; the input and processed listings are left
unchanged. -/
theorem c4_end_task_unknown_id_uncaught :
    do_end_task (strL "QDTsrv_20991231-235959") []
        [strL "a_LE1_VIS.fits"] [strL "b_LE1_VIS.fits"]
      = (.keyError, [strL "a_LE1_VIS.fits"], [strL "b_LE1_VIS.fits"]) := by decide

/-- C5: whenever the first line of the body does not contain the
boundary token, deal_post_data returns the missing-boundary failure
and the destination file is never opened and nothing is written. -/
theorem c5_missing_boundary :
    ∀ (boundary : List Char) (contentLength : Int) (body : List Char),
      containsSub boundary (readline body).1 = false →
      deal_post_data boundary contentLength body = (.noBoundary, false, []) := by
  intro b cl body h
  simp [deal_post_data, h]

/-- C5 witness: a body starting with a boundary-free line. -/
theorem c5_missing_boundary_witness :
    deal_post_data (strL "B") 5 (strL "xyz\r\n") = (.noBoundary, false, []) :=
  c5_missing_boundary (strL "B") 5 (strL "xyz\r\n") (by decide)

/-- C6: when the declared byte count is exhausted before any line
containing the boundary token is seen, the upload loop returns the
truncated failure; and with a non-empty boundary token absent from
every remaining line, the loop never returns success. -/
theorem c6_truncated_before_boundary :
    (∀ (b : List Char) (r : Int) (p w : List Char) (ls : List (List Char)),
        r ≤ 0 → uploadLoopL b r p w ls = (.truncated, w))
    ∧ (∀ (b : List Char) (r : Int) (p w : List Char) (ls : List (List Char)),
        b ≠ [] → (∀ l ∈ ls, containsSub b l = false) →
        (uploadLoopL b r p w ls).1 ≠ .success) := by
  constructor
  · intro b r p w ls hr
    cases ls <;> simp [uploadLoopL, hr]
  · intro b r p w ls hb
    induction ls generalizing r p w with
    | nil =>
      intro _
      by_cases hr : r ≤ 0
      · simp [uploadLoopL, hr]
      · have hcb : containsSub b [] = false := by
          simp only [containsSub, decide_eq_false_iff_not]
          exact hb
        simp [uploadLoopL, hr, hcb]
    | cons l rest ih =>
      intro hall
      by_cases hr : r ≤ 0
      · simp [uploadLoopL, hr]
      · have h1 : containsSub b l = false := hall l (by simp)
        simp only [uploadLoopL, hr, if_false, h1, Bool.false_eq_true]
        exact ih _ _ _ (fun x hx => hall x (by simp [hx]))

/-- C6 witness: exhausted counter, and a boundary-free stream. -/
theorem c6_truncated_before_boundary_witness :
    uploadLoopL (strL "B") 0 (strL "x\r\n") [] [strL "--B--\r\n"] = (.truncated, [])
    ∧ (uploadLoopL (strL "B") 5 (strL "x\r\n") [] [strL "data\r\n"]).1 ≠ .success :=
  ⟨c6_truncated_before_boundary.1 (strL "B") 0 (strL "x\r\n") [] [strL "--B--\r\n"]
      (by decide),
   c6_truncated_before_boundary.2 (strL "B") 5 (strL "x\r\n") [] [strL "data\r\n"]
      (by decide) (by decide)⟩

/-- C8: a get_task call on an empty pool invokes the refill exactly
once and a call on a non-empty pool never invokes it; whenever the
refill returns, the resulting pool is non-empty; after the refill the
call succeeds with a task descriptor when the directory scan found a
file, and the busy poll never returns when the directory is empty. -/
theorem c8_refill_once_nonempty :
    (∀ (now : List Char) (fsFits : List (List Char)) (reg : Registry),
        (do_get_task now fsFits [] reg).1 = 1)
    ∧ (∀ (now : List Char) (fsFits pool : List (List Char)) (reg : Registry),
        pool ≠ [] → (do_get_task now fsFits pool reg).1 = 0)
    ∧ (∀ (fsFits pool r : List (List Char)),
        get_new_input_files fsFits pool = some r → r ≠ [])
    ∧ (∀ (now f : List Char) (fs : List (List Char)) (reg : Registry),
        do_get_task now (f :: fs) [] reg
          = (1, .ok (mkTaskTest now f) fs (((mkTaskTest now f).task_id, f) :: reg)))
    ∧ (∀ (now : List Char) (reg : Registry), do_get_task now [] [] reg = (1, .hang)) := by
  refine ⟨?_, ?_, ?_, ?_, ?_⟩
  · intro now fs reg
    cases fs <;> simp [do_get_task, get_new_input_files]
  · intro now fs pool reg hne
    cases pool with
    | nil => exact absurd rfl hne
    | cons p ps => simp [do_get_task]
  · intro fs pool r h
    cases pool with
    | cons p ps =>
      have he : get_new_input_files fs (p :: ps) = some (p :: ps) := by
        unfold get_new_input_files
        rw [if_neg (by simp)]
      rw [he] at h
      injection h with h2
      rw [← h2]
      simp
    | nil =>
      cases fs with
      | nil =>
        have he : get_new_input_files [] ([] : List (List Char)) = none := by
          unfold get_new_input_files
          rw [if_pos (by simp)]
          simp
        rw [he] at h
        exact absurd h (by simp)
      | cons f fs =>
        have he : get_new_input_files (f :: fs) [] = some (f :: fs) := by
          unfold get_new_input_files
          rw [if_pos (by simp)]
          simp
        rw [he] at h
        injection h with h2
        rw [← h2]
        simp
  · intro now f fs reg
    simp [do_get_task, get_new_input_files]
  · intro now reg
    simp [do_get_task, get_new_input_files]

/-- C8 witness for the hypothesised conjuncts. -/
theorem c8_refill_once_nonempty_witness :
    (do_get_task (strL "20230101-000000") [] [strL "a_LE1_VIS.fits"] []).1 = 0
    ∧ [strL "a_LE1_VIS.fits"] ≠ ([] : List (List Char)) :=
  ⟨c8_refill_once_nonempty.2.1 (strL "20230101-000000") [] [strL "a_LE1_VIS.fits"] []
      (by decide),
   c8_refill_once_nonempty.2.2.1 [strL "a_LE1_VIS.fits"] [] [strL "a_LE1_VIS.fits"]
      (by decide)⟩

/-- C9: with a pool holding exactly one work item whose file is still
present in the input directory, two successive get_task calls (one
interleaving of two racing callers, no lock being taken anywhere)
both receive the same work item: the second call refills the pool
from the directory scan, which still lists the issued file. -/
theorem c9_both_receive_same_item :
    do_get_task (strL "20230101-000001")
        [strL "EUC_LE1_VIS-W-12000-1_20230101T000000.0Z.fits"]
        [strL "EUC_LE1_VIS-W-12000-1_20230101T000000.0Z.fits"] []
      = (0, .ok (mkTaskTest (strL "20230101-000001")
            (strL "EUC_LE1_VIS-W-12000-1_20230101T000000.0Z.fits")) []
            [(strL "QDTsrv_20230101-000001",
              strL "EUC_LE1_VIS-W-12000-1_20230101T000000.0Z.fits")])
    ∧ do_get_task (strL "20230101-000002")
        [strL "EUC_LE1_VIS-W-12000-1_20230101T000000.0Z.fits"] []
        [(strL "QDTsrv_20230101-000001",
          strL "EUC_LE1_VIS-W-12000-1_20230101T000000.0Z.fits")]
      = (1, .ok (mkTaskTest (strL "20230101-000002")
            (strL "EUC_LE1_VIS-W-12000-1_20230101T000000.0Z.fits")) []
            [(strL "QDTsrv_20230101-000002",
              strL "EUC_LE1_VIS-W-12000-1_20230101T000000.0Z.fits"),
             (strL "QDTsrv_20230101-000001",
              strL "EUC_LE1_VIS-W-12000-1_20230101T000000.0Z.fits")])
    ∧ (mkTaskTest (strL "20230101-000002")
          (strL "EUC_LE1_VIS-W-12000-1_20230101T000000.0Z.fits")).in_file
        = (mkTaskTest (strL "20230101-000001")
            (strL "EUC_LE1_VIS-W-12000-1_20230101T000000.0Z.fits")).in_file := by
  refine ⟨by decide, by decide, rfl⟩

/-- C10 counterexample: on a canonical input file name and a shared
clock reading the two scripts derive different log_file strings
(test-dataserver substitutes the tag LE1-VIS, orig substitutes the
no-longer-present LE1_VIS). -/
theorem c10_counterexample :
    (mkTaskTest (strL "20230101-000000")
        (strL "EUC_LE1_VIS-W-12000-1_20230101T000000.0Z.fits")).log_file
      ≠ (mkTaskOrig (strL "20230101-000000")
          (strL "EUC_LE1_VIS-W-12000-1_20230101T000000.0Z.fits")).log_file := by decide

/-- C10 amended: for every in_file and clock reading the two scripts
produce the same task_id, in_file, out_file and retrieve_path; only
the log_file derivations differ. -/
theorem c10_task_id_out_file_agree :
    ∀ now f : List Char,
      (mkTaskTest now f).task_id = (mkTaskOrig now f).task_id ∧
      (mkTaskTest now f).in_file = (mkTaskOrig now f).in_file ∧
      (mkTaskTest now f).out_file = (mkTaskOrig now f).out_file ∧
      (mkTaskTest now f).retrieve_path = (mkTaskOrig now f).retrieve_path := by
  intro now f
  exact ⟨rfl, rfl, rfl, rfl⟩

theorem pysub_lit_append (l rep : List Char) (c : Char) (u : List Char) (hc : c ∉ l)
    (hu : ∀ v, v <:+ c :: u → matchPre (l.map some) v = false) (s : List Char) :
    pysubL (l.map some) rep (s ++ c :: u) = pysubL (l.map some) rep s ++ c :: u := by
  refine pysubL_append_inner (l.map some) rep (c :: u) hu s.length s (Nat.le_refl _) ?_
  intro v hv hm
  have hlen : l.length ≤ v.length := matchPre_straddle l c u hc v hm
  exact matchPre_of_append (l.map some) (c :: u) v hm (by simpa using hlen)

theorem pysub_dotext_append (ext rep t : List Char) (hdot : '.' ∉ ext)
    (hcont : containsSub ext t = false) :
    pysubL (none :: ext.map some) rep (t ++ '.' :: ext)
      = t ++ pysubL (none :: ext.map some) rep ('.' :: ext) := by
  apply pysubL_append_outer
  intro v hv hne
  cases v with
  | nil => exact absurd rfl hne
  | cons d v =>
    have hred : matchPre (none :: ext.map some) (d :: (v ++ '.' :: ext))
        = matchPre (ext.map some) (v ++ '.' :: ext) := by
      simp [matchPre]
    rw [List.cons_append, hred]
    by_contra hx
    have hm : matchPre (ext.map some) (v ++ '.' :: ext) = true := Bool.of_not_eq_false hx
    have hlen : ext.length ≤ v.length := matchPre_straddle ext '.' ext hdot v hm
    have hmv : matchPre (ext.map some) v = true :=
      matchPre_of_append (ext.map some) ('.' :: ext) v hm (by simpa using hlen)
    obtain ⟨w, rfl⟩ := (matchPre_lit ext v).mp hmv
    obtain ⟨a, ha⟩ := hv
    have : containsSub ext t = true :=
      (containsSub_iff ext t).mpr ⟨a ++ [d], w, by simp [← ha]⟩
    rw [this] at hcont
    exact absurd hcont (by simp)

theorem leadsWith_self_append (n w : List Char) : leadsWith n (n ++ w) = true :=
  (leadsWith_iff n (n ++ w)).mpr ⟨w, rfl⟩

theorem chgExt_append (oldE newE x : List Char) :
    chgExt oldE newE (x ++ oldE) = x ++ newE := by
  unfold chgExt
  rw [if_pos]
  · rw [List.length_append]
    rw [show x.length + oldE.length - oldE.length = x.length by omega]
    rw [List.take_append_of_le_length (Nat.le_refl _), List.take_length]
  · unfold endsWithL
    rw [List.reverse_append, leadsWith_self_append]

/-- C7 counterexample: an in_file ending in .fits on which the coded
derivation does not follow the documented substitution rule, because
the dot of the pattern .fits is a regex wildcard and substitution is
global: the leading Xfits is also rewritten. -/
theorem c7_counterexample :
    endsWithL (strL ".fits") (strL "Xfits_LE1_VIS.fits") = true
    ∧ derive_out (strL "Xfits_LE1_VIS.fits")
        ≠ spec_out_file (strL "Xfits_LE1_VIS.fits") := by decide

/-- C7 amended: the derivation is a deterministic function of in_file,
and for every in_file of the shape stem ++ .fits in which the
character runs fits and json occur only as part of the final
extension (no occurrence of fits in the tag-substituted stem and no
occurrence of json in the log-tag-substituted stem), the coded
derivation agrees exactly with the documented substitution rule for
both out_file and log_file. -/
theorem c7_amended_substitution_rule :
    ∀ s : List Char,
      containsSub (strL "fits") (pysub (strL "LE1_VIS") (strL "QLA_LE1-VIS") s) = false →
      containsSub (strL "json")
          (pysub (strL "LE1-VIS") (strL "LE1-VIS-LOG")
            (pysub (strL "LE1_VIS") (strL "QLA_LE1-VIS") s)) = false →
      derive_out (s ++ strL ".fits") = spec_out_file (s ++ strL ".fits")
      ∧ derive_out (s ++ strL ".fits")
          = pysub (strL "LE1_VIS") (strL "QLA_LE1-VIS") s ++ strL ".json"
      ∧ derive_log (derive_out (s ++ strL ".fits")) = spec_log_file (s ++ strL ".fits") := by
  intro s h1 h2
  have e_fits : strL ".fits" = '.' :: strL "fits" := by decide
  have e_json : strL ".json" = '.' :: strL "json" := by decide
  have e_tag : toPat (strL "LE1_VIS") = (strL "LE1_VIS").map some := by decide
  have e_tag2 : toPat (strL "LE1-VIS") = (strL "LE1-VIS").map some := by decide
  have e_ext : toPat (strL ".fits") = none :: (strL "fits").map some := by decide
  have e_ext2 : toPat (strL ".json") = none :: (strL "json").map some := by decide
  set T := pysub (strL "LE1_VIS") (strL "QLA_LE1-VIS") s with hT
  set W := pysub (strL "LE1-VIS") (strL "LE1-VIS-LOG") T with hW
  have f1 : pysub (strL "LE1_VIS") (strL "QLA_LE1-VIS") (s ++ strL ".fits")
      = T ++ strL ".fits" := by
    rw [hT]
    unfold pysub
    rw [e_tag, e_fits]
    refine pysub_lit_append (strL "LE1_VIS") (strL "QLA_LE1-VIS") '.' (strL "fits")
      (by decide) ?_ s
    intro v hv
    apply matchPre_false_of_short
    have hle := hv.length_le
    have e1 : ('.' :: strL "fits").length = 5 := by decide
    have e2 : ((strL "LE1_VIS").map some).length = 7 := by decide
    omega
  have f2 : pysub (strL ".fits") (strL ".json") (T ++ strL ".fits")
      = T ++ strL ".json" := by
    unfold pysub
    rw [e_ext, e_fits]
    rw [pysub_dotext_append (strL "fits") (strL ".json") T (by decide) h1]
    congr 1
  have f3 : spec_out_file (s ++ strL ".fits") = T ++ strL ".json" := by
    unfold spec_out_file
    rw [f1, chgExt_append]
  have f4 : derive_out (s ++ strL ".fits") = T ++ strL ".json" := by
    unfold derive_out
    rw [f1, f2]
  have f5 : pysub (strL "LE1-VIS") (strL "LE1-VIS-LOG") (T ++ strL ".json")
      = W ++ strL ".json" := by
    rw [hW]
    unfold pysub
    rw [e_tag2, e_json]
    refine pysub_lit_append (strL "LE1-VIS") (strL "LE1-VIS-LOG") '.' (strL "json")
      (by decide) ?_ T
    intro v hv
    apply matchPre_false_of_short
    have hle := hv.length_le
    have e1 : ('.' :: strL "json").length = 5 := by decide
    have e2 : ((strL "LE1-VIS").map some).length = 7 := by decide
    omega
  have f6 : pysub (strL ".json") (strL ".log") (W ++ strL ".json")
      = W ++ strL ".log" := by
    unfold pysub
    rw [e_ext2, e_json]
    rw [pysub_dotext_append (strL "json") (strL ".log") W (by decide) h2]
    congr 1
  have f7 : derive_log (T ++ strL ".json") = W ++ strL ".log" := by
    unfold derive_log
    rw [f5, f6]
  have f8 : spec_log_file (s ++ strL ".fits") = W ++ strL ".log" := by
    unfold spec_log_file
    rw [f3, f5, chgExt_append]
  exact ⟨f4.trans f3.symm, f4, by rw [f4, f7, f8]⟩

/-- C7 witness: the canonical stem of a generated input file
satisfies both occurrence conditions and the rule applies. -/
theorem c7_amended_substitution_rule_witness :
    containsSub (strL "fits")
        (pysub (strL "LE1_VIS") (strL "QLA_LE1-VIS")
          (strL "EUC_LE1_VIS-W-12000-1_20230101T000000.0Z")) = false
    ∧ containsSub (strL "json")
        (pysub (strL "LE1-VIS") (strL "LE1-VIS-LOG")
          (pysub (strL "LE1_VIS") (strL "QLA_LE1-VIS")
            (strL "EUC_LE1_VIS-W-12000-1_20230101T000000.0Z"))) = false
    ∧ derive_out (strL "EUC_LE1_VIS-W-12000-1_20230101T000000.0Z" ++ strL ".fits")
        = spec_out_file (strL "EUC_LE1_VIS-W-12000-1_20230101T000000.0Z" ++ strL ".fits") :=
  ⟨by decide, by decide,
    (c7_amended_substitution_rule (strL "EUC_LE1_VIS-W-12000-1_20230101T000000.0Z")
      (by decide) (by decide)).1⟩
